import Mathlib

/-!
Verification of the pitch-generation and drift-scheduling engine of the
uncertain-keys virtual synthesizer (src/js/app.js, class Synth plus the
module-level helpers gaussianRandom / getGaussianPitch).

Modelling conventions for the shallow embedding:
* JavaScript numbers are modelled by real numbers; the type JNum adds the
  non-finite values (NaN, +Infinity, -Infinity) where a claim needs them
  (Number.isFinite checks).  Float rounding is abstracted away.
* Math.random() / gaussianRandom() draws are injected as explicit real
  parameters (the Draws record), making every operation a pure function.
* Web Audio side effects (node creation, setValueAtTime,
  linearRampToValueAtTime, ...) are modelled as an emitted instruction list
  (AudioInstr) in the order the source issues them.
* The Synth instance state that the claims concern is captured by SynthState:
  whether the audio context exists (and its sample rate), the current time,
  and the activeVoices table.  The JS object keyed by keyId is modelled as an
  association list whose keys are unique (the invariant proved below).
-/

noncomputable section

/-- A JavaScript number: a finite real, NaN, or a signed infinity. -/
inductive JNum where
  | fin (x : ℝ)
  | nan
  | posInf
  | negInf

/-- Number.isFinite. -/
def JNum.isFinite : JNum → Bool
  | .fin _ => true
  | _ => false

/-- const DRIFT_DURATION_SECONDS = 24 * 60 * 60. -/
def DRIFT_DURATION_SECONDS : ℝ := 24 * 60 * 60

/-- this.baseVoiceGain = 0.18. -/
def baseVoiceGain : ℝ := 0.18

/-- this.noteAttackTime = 0.02. -/
def noteAttackTime : ℝ := 0.02

/-- this.releaseFloorGain = 0.0001. -/
def releaseFloorGain : ℝ := 0.0001

/-- this.minOscillatorFrequency = 1. -/
def minOscillatorFrequency : ℝ := 1

/-- this.nyquistHeadroom = 0.45. -/
def nyquistHeadroom : ℝ := 0.45

/-- gaussianRandom(): sqrt(-2 ln u) * cos(2 pi v), as a pure function of the
two (nonzero) Math.random() draws u, v that the source's redraw loops
produce.  Elsewhere a standard-normal draw parameter z stands for the value
this function returned at that call site. -/
def gaussianRandom (u v : ℝ) : ℝ :=
  Real.sqrt (-2 * Real.log u) * Real.cos (2 * Real.pi * v)

/-- getGaussianPitch(baseFreq, varianceCents); z is the gaussianRandom()
draw taken when varianceCents is nonzero. -/
def getGaussianPitch (baseFreq varianceCents z : ℝ) : ℝ :=
  if varianceCents = 0 then baseFreq
  else baseFreq * (2 : ℝ) ^ ((z * varianceCents) / 1200)

/-- { min, max } as returned by Synth.getFrequencyBounds. -/
structure FrequencyBounds where
  min : ℝ
  max : ℝ

/-- Synth.getFrequencyBounds, as a function of the audio context's sample
rate (the source falls back to 44100 when no context exists; callers below
always run with a context). -/
def getFrequencyBounds (sampleRate : ℝ) : FrequencyBounds :=
  { min := minOscillatorFrequency
    max := max minOscillatorFrequency (sampleRate * nyquistHeadroom) }

/-- Synth.clampFrequency: minOscillatorFrequency for a non-finite input,
otherwise Math.min(bounds.max, Math.max(bounds.min, freq)). -/
def clampFrequency (sampleRate : ℝ) (freq : JNum) : ℝ :=
  match freq with
  | .fin x =>
      min (getFrequencyBounds sampleRate).max
        (max (getFrequencyBounds sampleRate).min x)
  | _ => minOscillatorFrequency

/-- Synth.shouldApplyFrequencySafeguard: waveType === "sine". -/
inductive WaveType where
  | sine
  | square
  | sawtooth
  | triangle
deriving DecidableEq

def shouldApplyFrequencySafeguard (waveType : WaveType) : Bool :=
  waveType = WaveType.sine

/-- The detune bounds computed inside Synth.scheduleDetuneRamp:
minDetune = 1200 * Math.log2(bounds.min / safeStartFreq). -/
def minDetuneFor (sampleRate startFreq : ℝ) : ℝ :=
  1200 * Real.logb 2
    ((getFrequencyBounds sampleRate).min / clampFrequency sampleRate (JNum.fin startFreq))

/-- maxDetune = 1200 * Math.log2(bounds.max / safeStartFreq). -/
def maxDetuneFor (sampleRate startFreq : ℝ) : ℝ :=
  1200 * Real.logb 2
    ((getFrequencyBounds sampleRate).max / clampFrequency sampleRate (JNum.fin startFreq))

/-- Models Number.isFinite(minDetune) && Number.isFinite(maxDetune) in
scheduleDetuneRamp: over the reals, 1200 * Math.log2(q) is a finite number
exactly when its argument q is positive (and finite). -/
def detuneBoundsFinite (sampleRate startFreq : ℝ) : Prop :=
  0 < (getFrequencyBounds sampleRate).min / clampFrequency sampleRate (JNum.fin startFreq)
  ∧ 0 < (getFrequencyBounds sampleRate).max / clampFrequency sampleRate (JNum.fin startFreq)

instance (sampleRate startFreq : ℝ) : Decidable (detuneBoundsFinite sampleRate startFreq) :=
  inferInstanceAs (Decidable (_ ∧ _))

/-- One scheduling instruction issued to the audio-rendering collaborator,
in the order the source issues them. -/
inductive AudioInstr where
  | oscCreate
  | setOscFrequency (value time : ℝ)
  | setDetune (value time : ℝ)
  | rampDetune (value time : ℝ)
  | filterCreate
  | setFilterFrequency (value time : ℝ)
  | gainCreate
  | setGain (value time : ℝ)
  | rampGainLinear (value time : ℝ)
  | rampGainExponential (value time : ℝ)
  | cancelGainAndHold (time : ℝ)
  | cancelGainScheduled (time : ℝ)
  | oscStart
  | oscStop (time : ℝ)

/-- The detune value an instruction schedules, if it is a detune
instruction. -/
def AudioInstr.detuneTarget : AudioInstr → Option ℝ
  | .setDetune v _ => some v
  | .rampDetune v _ => some v
  | _ => none

/-- Whether an instruction addresses the oscillator's detune parameter. -/
def AudioInstr.isDetuneInstr : AudioInstr → Bool
  | .setDetune _ _ => true
  | .rampDetune _ _ => true
  | _ => false

/-- const detuneLimit = driftRate > 0 ? maxDetune : minDetune. -/
def detuneLimitFor (sampleRate startFreq driftRate : ℝ) : ℝ :=
  if 0 < driftRate then maxDetuneFor sampleRate startFreq
  else minDetuneFor sampleRate startFreq

/-- Synth.scheduleDetuneRamp(detuneParam, now, startFreq, driftRate,
duration, useSafeguard), as the list of instructions it issues on the
detune parameter. -/
def scheduleDetuneRamp (sampleRate now startFreq driftRate duration : ℝ)
    (useSafeguard : Bool) : List AudioInstr :=
  let targetDetune := driftRate * duration
  if useSafeguard = false then
    [AudioInstr.rampDetune targetDetune (now + duration)]
  else
    let minDetune := minDetuneFor sampleRate startFreq
    let maxDetune := maxDetuneFor sampleRate startFreq
    if ¬ detuneBoundsFinite sampleRate startFreq ∨ driftRate = 0 then
      [AudioInstr.rampDetune targetDetune (now + duration)]
    else if minDetune ≤ targetDetune ∧ targetDetune ≤ maxDetune then
      [AudioInstr.rampDetune targetDetune (now + duration)]
    else
      let detuneLimit := detuneLimitFor sampleRate startFreq driftRate
      let timeToLimit := detuneLimit / driftRate
      if timeToLimit ≤ 0 then
        [AudioInstr.setDetune detuneLimit now,
         AudioInstr.setDetune detuneLimit (now + duration)]
      else if duration ≤ timeToLimit then
        [AudioInstr.rampDetune targetDetune (now + duration)]
      else
        [AudioInstr.rampDetune detuneLimit (now + timeToLimit),
         AudioInstr.setDetune detuneLimit (now + duration)]

/-- settings.driftMode: 'uniform' or (anything else) gaussian. -/
inductive DriftMode where
  | gaussian
  | uniform
deriving DecidableEq

/-- The settings object playNote destructures, with the string-valued
fields already parsed the way the source parses them (parseFloat on
driftMean/driftSpread, parseInt on octaveShift and driftDirection). -/
structure Settings where
  variance : ℝ
  waveType : WaveType
  cutoff : ℝ
  octaveShift : ℤ
  driftDirection : ℤ
  driftMode : DriftMode
  driftMean : ℝ
  driftSpread : ℝ

/-- The random draws one playNote call consumes: the gaussianRandom() value
for the initial pitch, the Math.random() direction draw, the Math.random()
uniform-speed draw and the gaussianRandom() gaussian-speed draw. -/
structure Draws where
  pitchZ : ℝ
  dirR : ℝ
  speedR : ℝ
  speedZ : ℝ

/-- direction = Math.random() < parseInt(driftDirection) / 100 ? 1 : -1. -/
def driftDirectionSign (driftDirection : ℤ) (r : ℝ) : ℝ :=
  if r < (driftDirection : ℝ) / 100 then 1 else -1

/-- The speed (cents per second) computed inside playNote's drift block:
uniform mode swaps min/max when given out of order, then takes
min + Math.random() * (max - min); gaussian mode takes
dMean + gaussianRandom() * dSpread. -/
def driftSpeed (mode : DriftMode) (dMean dSpread speedR speedZ : ℝ) : ℝ :=
  match mode with
  | .uniform =>
      let mn := if dSpread < dMean then dSpread else dMean
      let mx := if dSpread < dMean then dMean else dSpread
      mn + speedR * (mx - mn)
  | .gaussian => dMean + speedZ * dSpread

/-- const driftRate = direction * speed. -/
def planDriftRate (s : Settings) (d : Draws) : ℝ :=
  driftDirectionSign s.driftDirection d.dirR
    * driftSpeed s.driftMode s.driftMean s.driftSpread d.speedR d.speedZ

/-- One entry of this.activeVoices: the record { osc, gainNode, filter };
the handles are abstract, the voice's scheduled start frequency is kept. -/
structure Voice where
  startFreq : ℝ

/-- The Synth state the claims concern: this.audioCtx (none before init(),
some sampleRate after), audioCtx.currentTime, and this.activeVoices as an
association list from keyId to Voice. -/
structure SynthState (K : Type) where
  ctxSampleRate : Option ℝ
  currentTime : ℝ
  activeVoices : List (K × Voice)

/-- this.activeVoices[keyId]: the binding for keyId, if any. -/
def findVoice {K : Type} [DecidableEq K] (k : K) : List (K × Voice) → Option Voice
  | [] => none
  | (k', v) :: rest => if k' = k then some v else findVoice k rest

/-- delete this.activeVoices[keyId]: remove the binding for keyId. -/
def removeKey {K : Type} [DecidableEq K] (k : K) : List (K × Voice) → List (K × Voice)
  | [] => []
  | (k', v) :: rest => if k' = k then rest else (k', v) :: removeKey k rest

/-- The oscillator start frequency playNote computes: the octave-shifted
base frequency, perturbed by getGaussianPitch, clamped only when the sine
safeguard applies. -/
def noteStartFreq (sampleRate freq : ℝ) (s : Settings) (pitchZ : ℝ) : ℝ :=
  let baseFreq := freq * (2 : ℝ) ^ (s.octaveShift : ℤ)
  let finalFreq := getGaussianPitch baseFreq s.variance pitchZ
  if shouldApplyFrequencySafeguard s.waveType then
    clampFrequency sampleRate (JNum.fin finalFreq)
  else finalFreq

/-- Synth.playNote(freq, keyId, settings): returns the new state and the
instruction trace, in source order.  Returns the state unchanged with an
empty trace when no audio context exists or a voice is already active for
keyId. -/
def playNote {K : Type} [DecidableEq K] (st : SynthState K) (freq : ℝ) (keyId : K)
    (s : Settings) (d : Draws) : SynthState K × List AudioInstr :=
  match st.ctxSampleRate with
  | none => (st, [])
  | some sampleRate =>
    if (findVoice keyId st.activeVoices).isSome then (st, [])
    else
      let now := st.currentTime
      let startFreq := noteStartFreq sampleRate freq s d.pitchZ
      let detuneInstrs :=
        if 0 < s.driftMean ∨ 0 < s.driftSpread then
          AudioInstr.setDetune 0 now ::
            scheduleDetuneRamp sampleRate now startFreq (planDriftRate s d)
              DRIFT_DURATION_SECONDS (shouldApplyFrequencySafeguard s.waveType)
        else []
      let trace :=
        AudioInstr.oscCreate :: AudioInstr.setOscFrequency startFreq now ::
          detuneInstrs ++
          [AudioInstr.filterCreate, AudioInstr.setFilterFrequency s.cutoff now,
           AudioInstr.gainCreate, AudioInstr.setGain 0 now,
           AudioInstr.rampGainLinear baseVoiceGain (now + noteAttackTime),
           AudioInstr.oscStart]
      ({ st with activeVoices := (keyId, ⟨startFreq⟩) :: st.activeVoices }, trace)

/-- Synth.holdGainAutomation(gainParam, now): cancelAndHoldAtTime when the
rendering collaborator supports it, otherwise cancelScheduledValues plus a
setValueAtTime of the current instantaneous gain value. -/
def holdGainAutomation (hasCancelAndHold : Bool) (gainValue now : ℝ) : List AudioInstr :=
  if hasCancelAndHold then [AudioInstr.cancelGainAndHold now]
  else [AudioInstr.cancelGainScheduled now, AudioInstr.setGain gainValue now]

/-- Synth.stopNote(keyId): no-op when no voice is active for keyId; no-op
when the audio context is gone; otherwise holds the gain, schedules the
release ramp and the oscillator stop, and deletes the voice.  gainValue is
the instantaneous gainNode.gain.value the render collaborator reports. -/
def stopNote {K : Type} [DecidableEq K] (st : SynthState K) (keyId : K)
    (hasCancelAndHold : Bool) (gainValue : ℝ) : SynthState K × List AudioInstr :=
  match findVoice keyId st.activeVoices with
  | none => (st, [])
  | some _ =>
    match st.ctxSampleRate with
    | none => (st, [])
    | some _ =>
      let now := st.currentTime
      let releaseStart := max gainValue releaseFloorGain
      ({ st with activeVoices := removeKey keyId st.activeVoices },
       holdGainAutomation hasCancelAndHold gainValue now ++
         [AudioInstr.setGain releaseStart now,
          AudioInstr.rampGainExponential releaseFloorGain (now + 0.15),
          AudioInstr.oscStop (now + 0.16)])

/-- One engine call, for stating invariants over call sequences. -/
inductive SynthEvent (K : Type) where
  | play (freq : ℝ) (keyId : K) (s : Settings) (d : Draws)
  | stop (keyId : K) (hasCancelAndHold : Bool) (gainValue : ℝ)

/-- The state after one playNote/stopNote call. -/
def stepEvent {K : Type} [DecidableEq K] (st : SynthState K) : SynthEvent K → SynthState K
  | .play freq k s d => (playNote st freq k s d).1
  | .stop k h g => (stopNote st k h g).1

/-- The state after a sequence of playNote/stopNote calls. -/
def runEvents {K : Type} [DecidableEq K] (st : SynthState K) (es : List (SynthEvent K)) :
    SynthState K :=
  es.foldl stepEvent st

/-- At most one active Voice per keyId: the keys of the activeVoices table
are pairwise distinct. -/
def atMostOneVoicePerKey {K : Type} (st : SynthState K) : Prop :=
  (st.activeVoices.map Prod.fst).Nodup

end

/-! ## Shared lemmas -/

theorem one_le_bounds_max (sampleRate : ℝ) : 1 ≤ (getFrequencyBounds sampleRate).max :=
  le_max_left _ _

theorem one_le_clampFrequency (sampleRate : ℝ) (freq : JNum) :
    1 ≤ clampFrequency sampleRate freq := by
  cases freq with
  | fin x =>
      simp only [clampFrequency, getFrequencyBounds, minOscillatorFrequency]
      exact le_min (le_max_left _ _) (le_max_left _ _)
  | nan => exact le_refl _
  | posInf => exact le_refl _
  | negInf => exact le_refl _

theorem clampFrequency_le_max (sampleRate : ℝ) (freq : JNum) :
    clampFrequency sampleRate freq ≤ (getFrequencyBounds sampleRate).max := by
  cases freq with
  | fin x => exact min_le_left _ _
  | nan => exact one_le_bounds_max sampleRate
  | posInf => exact one_le_bounds_max sampleRate
  | negInf => exact one_le_bounds_max sampleRate

theorem clampFrequency_pos (sampleRate : ℝ) (freq : JNum) :
    0 < clampFrequency sampleRate freq :=
  lt_of_lt_of_le zero_lt_one (one_le_clampFrequency sampleRate freq)

theorem detuneBoundsFinite_holds (sampleRate startFreq : ℝ) :
    detuneBoundsFinite sampleRate startFreq := by
  have hc : 0 < clampFrequency sampleRate (JNum.fin startFreq) :=
    clampFrequency_pos sampleRate (JNum.fin startFreq)
  have hmin : (0 : ℝ) < (getFrequencyBounds sampleRate).min := by
    simp [getFrequencyBounds, minOscillatorFrequency]
  have hmax : (0 : ℝ) < (getFrequencyBounds sampleRate).max :=
    lt_of_lt_of_le zero_lt_one (one_le_bounds_max sampleRate)
  exact ⟨div_pos hmin hc, div_pos hmax hc⟩

theorem filter_scheduleDetuneRamp (sampleRate now startFreq driftRate duration : ℝ)
    (useSafeguard : Bool) :
    (scheduleDetuneRamp sampleRate now startFreq driftRate duration useSafeguard).filter
        AudioInstr.isDetuneInstr
      = scheduleDetuneRamp sampleRate now startFreq driftRate duration useSafeguard := by
  simp only [scheduleDetuneRamp]
  split_ifs <;> simp [AudioInstr.isDetuneInstr]

theorem mem_map_fst_removeKey {K : Type} [DecidableEq K] (k x : K) (l : List (K × Voice)) :
    x ∈ (removeKey k l).map Prod.fst → x ∈ l.map Prod.fst := by
  induction l with
  | nil => intro h; simp [removeKey] at h
  | cons p rest ih =>
      obtain ⟨k', v⟩ := p
      simp only [removeKey]
      split_ifs with h
      · intro hx
        rw [List.map_cons]
        exact List.mem_cons_of_mem _ hx
      · intro hx
        rw [List.map_cons] at hx ⊢
        rcases List.mem_cons.mp hx with h1 | h1
        · exact List.mem_cons.mpr (Or.inl h1)
        · exact List.mem_cons.mpr (Or.inr (ih h1))

theorem nodup_map_fst_removeKey {K : Type} [DecidableEq K] (k : K) (l : List (K × Voice)) :
    (l.map Prod.fst).Nodup → ((removeKey k l).map Prod.fst).Nodup := by
  induction l with
  | nil => intro h; simp [removeKey]
  | cons p rest ih =>
      obtain ⟨k', v⟩ := p
      intro h
      rw [List.map_cons, List.nodup_cons] at h
      simp only [removeKey]
      split_ifs with hk
      · exact h.2
      · rw [List.map_cons, List.nodup_cons]
        exact ⟨fun hx => h.1 (mem_map_fst_removeKey k k' rest hx), ih h.2⟩

theorem findVoice_eq_none_iff {K : Type} [DecidableEq K] (k : K) (l : List (K × Voice)) :
    findVoice k l = none ↔ k ∉ l.map Prod.fst := by
  induction l with
  | nil => simp [findVoice]
  | cons p rest ih =>
      obtain ⟨k', v⟩ := p
      simp only [findVoice, List.map_cons, List.mem_cons]
      split_ifs with h
      · simp [h]
      · rw [ih]
        constructor
        · intro hn hc
          rcases hc with hc | hc
          · exact h hc.symm
          · exact hn hc
        · intro hn hc
          exact hn (Or.inr hc)

theorem findVoice_removeKey_self {K : Type} [DecidableEq K] (k : K) (l : List (K × Voice))
    (h : (l.map Prod.fst).Nodup) : findVoice k (removeKey k l) = none := by
  induction l with
  | nil => simp [removeKey, findVoice]
  | cons p rest ih =>
      obtain ⟨k', v⟩ := p
      rw [List.map_cons, List.nodup_cons] at h
      simp only [removeKey]
      split_ifs with hk
      · exact (findVoice_eq_none_iff k rest).mpr (hk ▸ h.1)
      · simp only [findVoice]
        rw [if_neg hk]
        exact ih h.2

theorem playNote_preserves_nodup {K : Type} [DecidableEq K] (st : SynthState K) (freq : ℝ)
    (k : K) (s : Settings) (d : Draws) (h : atMostOneVoicePerKey st) :
    atMostOneVoicePerKey (playNote st freq k s d).1 := by
  rcases hsr : st.ctxSampleRate with _ | sr
  · simpa [playNote, hsr] using h
  · by_cases hv : (findVoice k st.activeVoices).isSome = true
    · simpa [playNote, hsr, hv] using h
    · have hnone : findVoice k st.activeVoices = none := by
        cases hfv : findVoice k st.activeVoices with
        | none => rfl
        | some w => rw [hfv] at hv; simp at hv
      have hkey : k ∉ st.activeVoices.map Prod.fst := (findVoice_eq_none_iff k _).mp hnone
      have hres : (playNote st freq k s d).1
          = { st with activeVoices :=
                (k, ⟨noteStartFreq sr freq s d.pitchZ⟩) :: st.activeVoices } := by
        simp [playNote, hsr, hnone]
      unfold atMostOneVoicePerKey at h ⊢
      rw [hres]
      rw [List.map_cons, List.nodup_cons]
      exact ⟨hkey, h⟩

theorem stopNote_preserves_nodup {K : Type} [DecidableEq K] (st : SynthState K) (k : K)
    (hch : Bool) (g : ℝ) (h : atMostOneVoicePerKey st) :
    atMostOneVoicePerKey (stopNote st k hch g).1 := by
  cases hfv : findVoice k st.activeVoices with
  | none => simpa [stopNote, hfv] using h
  | some v =>
      rcases hsr : st.ctxSampleRate with _ | sr
      · simpa [stopNote, hfv, hsr] using h
      · unfold atMostOneVoicePerKey at h ⊢
        simp only [stopNote, hfv, hsr]
        exact nodup_map_fst_removeKey k st.activeVoices h

theorem stepEvent_preserves_nodup {K : Type} [DecidableEq K] (st : SynthState K)
    (e : SynthEvent K) (h : atMostOneVoicePerKey st) :
    atMostOneVoicePerKey (stepEvent st e) := by
  cases e with
  | play freq k s d => exact playNote_preserves_nodup st freq k s d h
  | stop k hch g => exact stopNote_preserves_nodup st k hch g h

theorem runEvents_preserves_nodup {K : Type} [DecidableEq K] (es : List (SynthEvent K)) :
    ∀ st : SynthState K, atMostOneVoicePerKey st → atMostOneVoicePerKey (runEvents st es) := by
  induction es with
  | nil => intro st h; simpa [runEvents] using h
  | cons e rest ih =>
      intro st h
      simpa [runEvents, List.foldl_cons] using ih _ (stepEvent_preserves_nodup st e h)

/-! ## Claim theorems -/

/-- C2: getGaussianPitch returns the base frequency exactly when the
variance is 0; for nonzero variance it returns
baseFrequencyHz * 2 ^ ((z * varianceCents) / 1200) for the standard-normal
draw z, and the result is strictly positive whenever the base frequency
is. -/
theorem getGaussianPitch_spec (f v z : ℝ) :
    getGaussianPitch f 0 z = f
    ∧ (v ≠ 0 → getGaussianPitch f v z = f * (2 : ℝ) ^ ((z * v) / 1200))
    ∧ (0 < f → 0 < getGaussianPitch f v z) := by
  refine ⟨by simp [getGaussianPitch], fun hv => by simp [getGaussianPitch, hv], fun hf => ?_⟩
  unfold getGaussianPitch
  split
  · exact hf
  · exact mul_pos hf (Real.rpow_pos_of_pos (by norm_num) _)

/-- C5: in Uniform drift mode the two parameters are auto-swapped into
{min, max} order, so the speed is min + r * (max - min), symmetric in the
two parameters; a draw of 0 yields the minimum and a draw of 1 yields the
maximum, including for the inverted pair (25, 5). -/
theorem driftSpeed_uniform_spec (p1 p2 r z : ℝ) :
    driftSpeed DriftMode.uniform p1 p2 r z
        = min p1 p2 + r * (max p1 p2 - min p1 p2)
    ∧ driftSpeed DriftMode.uniform p1 p2 r z = driftSpeed DriftMode.uniform p2 p1 r z
    ∧ driftSpeed DriftMode.uniform p1 p2 0 z = min p1 p2
    ∧ driftSpeed DriftMode.uniform p1 p2 1 z = max p1 p2
    ∧ driftSpeed DriftMode.uniform 25 5 r z = driftSpeed DriftMode.uniform 5 25 r z := by
  have key : ∀ a b : ℝ, driftSpeed DriftMode.uniform a b r z
      = min a b + r * (max a b - min a b) := by
    intro a b
    rcases lt_or_le b a with h | h
    · simp [driftSpeed, if_pos h, min_eq_right h.le, max_eq_left h.le]
    · simp [driftSpeed, if_neg (not_lt.mpr h), min_eq_left h, max_eq_right h]
  have key0 : ∀ a b : ℝ, driftSpeed DriftMode.uniform a b 0 z = min a b := by
    intro a b
    rcases lt_or_le b a with h | h
    · simp [driftSpeed, if_pos h, min_eq_right h.le]
    · simp [driftSpeed, if_neg (not_lt.mpr h), min_eq_left h]
  have key1 : ∀ a b : ℝ, driftSpeed DriftMode.uniform a b 1 z = max a b := by
    intro a b
    rcases lt_or_le b a with h | h
    · simp [driftSpeed, if_pos h, max_eq_left h.le]
    · simp [driftSpeed, if_neg (not_lt.mpr h), max_eq_right h]
  refine ⟨key p1 p2, ?_, key0 p1 p2, key1 p1 p2, ?_⟩
  · rw [key p1 p2, key p2 p1, min_comm, max_comm]
  · rw [key 25 5, key 5 25, min_comm, max_comm]

/-- C4: in Gaussian drift mode the planned speed is
driftMean + z * driftSpread (so z = 0 yields the mean exactly), the final
rate is directionSign * speed with directionSign in {1, -1}, and the speed
itself can be negative. -/
theorem driftPlan_gaussian_spec (s : Settings) (d : Draws)
    (hmode : s.driftMode = DriftMode.gaussian) :
    driftSpeed s.driftMode s.driftMean s.driftSpread d.speedR d.speedZ
        = s.driftMean + d.speedZ * s.driftSpread
    ∧ (d.speedZ = 0 →
        driftSpeed s.driftMode s.driftMean s.driftSpread d.speedR d.speedZ = s.driftMean)
    ∧ planDriftRate s d
        = driftDirectionSign s.driftDirection d.dirR
            * (s.driftMean + d.speedZ * s.driftSpread)
    ∧ (driftDirectionSign s.driftDirection d.dirR = 1
        ∨ driftDirectionSign s.driftDirection d.dirR = -1)
    ∧ (∃ m sp rr zz, driftSpeed DriftMode.gaussian m sp rr zz < 0) := by
  have hs : driftSpeed s.driftMode s.driftMean s.driftSpread d.speedR d.speedZ
      = s.driftMean + d.speedZ * s.driftSpread := by
    rw [hmode]; rfl
  refine ⟨hs, fun hz => by rw [hs, hz]; ring, ?_, ?_, ⟨0, 1, 0, -1, by norm_num [driftSpeed]⟩⟩
  · rw [planDriftRate, hs]
  · unfold driftDirectionSign
    split
    · exact Or.inl rfl
    · exact Or.inr rfl

/-- C4 witness: Gaussian mode with mean 12, spread 5 and a zero draw. -/
theorem driftPlan_gaussian_spec_witness :
    driftSpeed DriftMode.gaussian 12 5 0 0 = 12 + 0 * 5
    ∧ ((0 : ℝ) = 0 → driftSpeed DriftMode.gaussian 12 5 0 0 = 12)
    ∧ planDriftRate ⟨0, WaveType.sine, 1000, 0, 50, DriftMode.gaussian, 12, 5⟩ ⟨0, 0, 0, 0⟩
        = driftDirectionSign 50 0 * (12 + 0 * 5)
    ∧ (driftDirectionSign 50 0 = 1 ∨ driftDirectionSign 50 0 = -1)
    ∧ (∃ m sp rr zz, driftSpeed DriftMode.gaussian m sp rr zz < 0) :=
  driftPlan_gaussian_spec ⟨0, WaveType.sine, 1000, 0, 50, DriftMode.gaussian, 12, 5⟩
    ⟨0, 0, 0, 0⟩ rfl

/-- C8: getFrequencyBounds returns min 1 and max (max 1 (sampleRate * 0.45));
clampFrequency returns the floor for every non-finite input, clamps finite
inputs into the bounds, and its result always lies in [min, max]. -/
theorem frequencyBounds_clamp_spec (sampleRate : ℝ) (freq : JNum) (x : ℝ) :
    (getFrequencyBounds sampleRate).min = 1
    ∧ (getFrequencyBounds sampleRate).max = max 1 (sampleRate * 0.45)
    ∧ (freq.isFinite = false → clampFrequency sampleRate freq = 1)
    ∧ clampFrequency sampleRate (JNum.fin x)
        = min (max 1 (sampleRate * 0.45)) (max 1 x)
    ∧ 1 ≤ clampFrequency sampleRate freq
    ∧ clampFrequency sampleRate freq ≤ (getFrequencyBounds sampleRate).max := by
  refine ⟨rfl, rfl, fun hnf => ?_, rfl, one_le_clampFrequency sampleRate freq,
    clampFrequency_le_max sampleRate freq⟩
  cases freq with
  | fin y => simp [JNum.isFinite] at hnf
  | nan => rfl
  | posInf => rfl
  | negInf => rfl

/-- C3: an effective playNote call schedules detune instructions — the
reset to 0 at note-on followed by the planned ramp — exactly when the
parsed drift mean or the parsed drift spread is positive; when both are
nonpositive, no detune instruction is issued at all. -/
theorem playNote_detune_iff {K : Type} [DecidableEq K] (st : SynthState K) (freq : ℝ)
    (k : K) (s : Settings) (d : Draws) (sampleRate : ℝ)
    (hsr : st.ctxSampleRate = some sampleRate)
    (hfree : findVoice k st.activeVoices = none) :
    ((playNote st freq k s d).2.filter AudioInstr.isDetuneInstr ≠ []
        ↔ (0 < s.driftMean ∨ 0 < s.driftSpread))
    ∧ (s.driftMean ≤ 0 ∧ s.driftSpread ≤ 0 →
        (playNote st freq k s d).2.filter AudioInstr.isDetuneInstr = [])
    ∧ ((0 < s.driftMean ∨ 0 < s.driftSpread) →
        (playNote st freq k s d).2.filter AudioInstr.isDetuneInstr
          = AudioInstr.setDetune 0 st.currentTime ::
              scheduleDetuneRamp sampleRate st.currentTime
                (noteStartFreq sampleRate freq s d.pitchZ) (planDriftRate s d)
                DRIFT_DURATION_SECONDS (shouldApplyFrequencySafeguard s.waveType)) := by
  have key : (playNote st freq k s d).2.filter AudioInstr.isDetuneInstr
      = if 0 < s.driftMean ∨ 0 < s.driftSpread then
          AudioInstr.setDetune 0 st.currentTime ::
            scheduleDetuneRamp sampleRate st.currentTime
              (noteStartFreq sampleRate freq s d.pitchZ) (planDriftRate s d)
              DRIFT_DURATION_SECONDS (shouldApplyFrequencySafeguard s.waveType)
        else [] := by
    by_cases hc : 0 < s.driftMean ∨ 0 < s.driftSpread
    · rw [if_pos hc]
      simp [playNote, hsr, hfree, hc, AudioInstr.isDetuneInstr, filter_scheduleDetuneRamp]
    · rw [if_neg hc]
      simp [playNote, hsr, hfree, hc, AudioInstr.isDetuneInstr]
  refine ⟨?_, fun hle => ?_, fun hc => ?_⟩
  · rw [key]
    by_cases hc : 0 < s.driftMean ∨ 0 < s.driftSpread
    · simp [hc]
    · simp [hc]
  · rw [key, if_neg ?_]
    intro hc
    rcases hc with hc | hc
    · linarith [hle.1]
    · linarith [hle.2]
  · rw [key, if_pos hc]

/-- C3 witness: playNote at 440 Hz with zero drift mean and zero drift
spread issues no detune instruction. -/
theorem playNote_detune_iff_witness :
    (playNote (K := ℕ) ⟨some 44100, 0, []⟩ 440 0
        ⟨0, WaveType.sine, 1000, 0, 50, DriftMode.gaussian, 0, 0⟩ ⟨0, 0, 0, 0⟩).2.filter
        AudioInstr.isDetuneInstr = [] :=
  (playNote_detune_iff (K := ℕ) ⟨some 44100, 0, []⟩ 440 0
      ⟨0, WaveType.sine, 1000, 0, 50, DriftMode.gaussian, 0, 0⟩ ⟨0, 0, 0, 0⟩ 44100
      rfl rfl).2.1 ⟨le_refl 0, le_refl 0⟩

/-- C6: playNote is a no-op — no oscillator, no instruction, table
unchanged — for a keyId that already has an active voice, and every
sequence of playNote/stopNote calls preserves the
at-most-one-voice-per-key invariant. -/
theorem playNote_monophonic_invariant {K : Type} [DecidableEq K] (st : SynthState K)
    (freq : ℝ) (k : K) (s : Settings) (d : Draws) (es : List (SynthEvent K)) :
    ((findVoice k st.activeVoices).isSome = true → playNote st freq k s d = (st, []))
    ∧ (atMostOneVoicePerKey st → atMostOneVoicePerKey (runEvents st es)) := by
  constructor
  · intro h
    rcases hsr : st.ctxSampleRate with _ | sr <;> simp [playNote, hsr, h]
  · exact runEvents_preserves_nodup es st

/-- C7: for an active voice, stopNote cancels the pending gain automation
and holds the current instantaneous gain, schedules the exponential ramp
down to the positive release floor over 0.15 s, and schedules the
oscillator stop at 0.16 s — strictly after the gain ramp begins (and after
it ends). -/
theorem stopNote_release_spec {K : Type} [DecidableEq K] (st : SynthState K) (k : K)
    (hch : Bool) (gainValue : ℝ) (v : Voice) (sampleRate : ℝ)
    (hv : findVoice k st.activeVoices = some v)
    (hsr : st.ctxSampleRate = some sampleRate) :
    stopNote st k hch gainValue
      = ({ st with activeVoices := removeKey k st.activeVoices },
         (if hch then [AudioInstr.cancelGainAndHold st.currentTime]
          else [AudioInstr.cancelGainScheduled st.currentTime,
                AudioInstr.setGain gainValue st.currentTime]) ++
           [AudioInstr.setGain (max gainValue releaseFloorGain) st.currentTime,
            AudioInstr.rampGainExponential releaseFloorGain (st.currentTime + 0.15),
            AudioInstr.oscStop (st.currentTime + 0.16)])
    ∧ 0 < releaseFloorGain
    ∧ st.currentTime < st.currentTime + 0.16
    ∧ st.currentTime + 0.15 < st.currentTime + 0.16 := by
  refine ⟨?_, by norm_num [releaseFloorGain], by norm_num, by norm_num⟩
  simp [stopNote, hv, hsr, holdGainAutomation]

/-- C7 witness: stopping the one active voice of a concrete state. -/
theorem stopNote_release_spec_witness :
    stopNote (K := ℕ) ⟨some 44100, 100, [(0, ⟨440⟩)]⟩ 0 false (0.18 : ℝ)
      = (⟨some 44100, 100, []⟩,
         [AudioInstr.cancelGainScheduled 100, AudioInstr.setGain 0.18 100,
          AudioInstr.setGain (max 0.18 releaseFloorGain) 100,
          AudioInstr.rampGainExponential releaseFloorGain (100 + 0.15),
          AudioInstr.oscStop (100 + 0.16)])
    ∧ 0 < releaseFloorGain
    ∧ (100 : ℝ) < 100 + 0.16
    ∧ (100 : ℝ) + 0.15 < 100 + 0.16 :=
  stopNote_release_spec (K := ℕ) ⟨some 44100, 100, [(0, ⟨440⟩)]⟩ 0 false 0.18 ⟨440⟩ 44100
    rfl rfl

/-- C9: stopNote on a keyId with no active voice is a silent no-op; a
successful stopNote removes the voice within the same call, so an
immediately repeated stopNote on the same keyId is also a no-op. -/
theorem stopNote_idempotent_spec {K : Type} [DecidableEq K] (st : SynthState K) (k : K)
    (hch1 hch2 : Bool) (g1 g2 : ℝ) :
    (findVoice k st.activeVoices = none → stopNote st k hch1 g1 = (st, []))
    ∧ (atMostOneVoicePerKey st → st.ctxSampleRate.isSome = true →
        findVoice k ((stopNote st k hch1 g1).1).activeVoices = none
        ∧ stopNote ((stopNote st k hch1 g1).1) k hch2 g2
            = ((stopNote st k hch1 g1).1, [])) := by
  constructor
  · intro h
    simp [stopNote, h]
  · intro hnodup hctx
    rcases hsr : st.ctxSampleRate with _ | sr
    · rw [hsr] at hctx; simp at hctx
    · cases hfv : findVoice k st.activeVoices with
      | none =>
          have hst : stopNote st k hch1 g1 = (st, []) := by simp [stopNote, hfv]
          rw [hst]
          exact ⟨hfv, by simp [stopNote, hfv]⟩
      | some v =>
          have hst : (stopNote st k hch1 g1).1
              = { st with activeVoices := removeKey k st.activeVoices } := by
            simp [stopNote, hfv, hsr]
          rw [hst]
          have hnone : findVoice k (removeKey k st.activeVoices) = none :=
            findVoice_removeKey_self k st.activeVoices hnodup
          exact ⟨hnone, by simp [stopNote, hnone]⟩

/-- C10: playNote is a silent no-op — state unchanged, no instruction
issued — when no audio context exists because init() was never called. -/
theorem playNote_no_context_noop {K : Type} [DecidableEq K] (st : SynthState K)
    (freq : ℝ) (k : K) (s : Settings) (d : Draws) (h : st.ctxSampleRate = none) :
    playNote st freq k s d = (st, []) := by
  simp [playNote, h]

/-- C1: with the safeguard enabled, a nonzero rate, a positive duration and
a target detune outside [minDetune, maxDetune], scheduleDetuneRamp emits
exactly (a) an immediate hold at the limit when timeToLimit is nonpositive,
(b) the single unclamped linear ramp when timeToLimit covers the whole
duration, (c) a linear ramp to the limit followed by a hold otherwise; and
every scheduled detune value stays on the safe side of the limit. -/
theorem scheduleDetuneRamp_safeguard_cases (sampleRate now startFreq driftRate duration : ℝ)
    (hrate : driftRate ≠ 0) (hdur : 0 < duration)
    (hout : driftRate * duration < minDetuneFor sampleRate startFreq
        ∨ maxDetuneFor sampleRate startFreq < driftRate * duration) :
    (scheduleDetuneRamp sampleRate now startFreq driftRate duration true =
      if detuneLimitFor sampleRate startFreq driftRate / driftRate ≤ 0 then
        [AudioInstr.setDetune (detuneLimitFor sampleRate startFreq driftRate) now,
         AudioInstr.setDetune (detuneLimitFor sampleRate startFreq driftRate) (now + duration)]
      else if duration ≤ detuneLimitFor sampleRate startFreq driftRate / driftRate then
        [AudioInstr.rampDetune (driftRate * duration) (now + duration)]
      else
        [AudioInstr.rampDetune (detuneLimitFor sampleRate startFreq driftRate)
           (now + detuneLimitFor sampleRate startFreq driftRate / driftRate),
         AudioInstr.setDetune (detuneLimitFor sampleRate startFreq driftRate) (now + duration)])
    ∧ ∀ i ∈ scheduleDetuneRamp sampleRate now startFreq driftRate duration true, ∀ v,
        i.detuneTarget = some v →
          (0 < driftRate → v ≤ detuneLimitFor sampleRate startFreq driftRate)
          ∧ (driftRate < 0 → detuneLimitFor sampleRate startFreq driftRate ≤ v) := by
  have hfin := detuneBoundsFinite_holds sampleRate startFreq
  have h1 : ¬ (true = false) := by simp
  have h2 : ¬ (¬ detuneBoundsFinite sampleRate startFreq ∨ driftRate = 0) := by
    intro h
    rcases h with h | h
    · exact h hfin
    · exact hrate h
  have h3 : ¬ (minDetuneFor sampleRate startFreq ≤ driftRate * duration
      ∧ driftRate * duration ≤ maxDetuneFor sampleRate startFreq) := by
    rcases hout with h | h
    · intro hc; linarith [hc.1]
    · intro hc; linarith [hc.2]
  have hexp : scheduleDetuneRamp sampleRate now startFreq driftRate duration true =
      if detuneLimitFor sampleRate startFreq driftRate / driftRate ≤ 0 then
        [AudioInstr.setDetune (detuneLimitFor sampleRate startFreq driftRate) now,
         AudioInstr.setDetune (detuneLimitFor sampleRate startFreq driftRate) (now + duration)]
      else if duration ≤ detuneLimitFor sampleRate startFreq driftRate / driftRate then
        [AudioInstr.rampDetune (driftRate * duration) (now + duration)]
      else
        [AudioInstr.rampDetune (detuneLimitFor sampleRate startFreq driftRate)
           (now + detuneLimitFor sampleRate startFreq driftRate / driftRate),
         AudioInstr.setDetune (detuneLimitFor sampleRate startFreq driftRate) (now + duration)] := by
    simp only [scheduleDetuneRamp]
    rw [if_neg h1, if_neg h2, if_neg h3]
  refine ⟨hexp, ?_⟩
  intro i hi v hv
  rw [hexp] at hi
  by_cases ht0 : detuneLimitFor sampleRate startFreq driftRate / driftRate ≤ 0
  · rw [if_pos ht0] at hi
    have hvL : v = detuneLimitFor sampleRate startFreq driftRate := by
      simp only [List.mem_cons, List.not_mem_nil, or_false] at hi
      rcases hi with rfl | rfl <;> simpa [AudioInstr.detuneTarget] using hv.symm
    rw [hvL]
    exact ⟨fun _ => le_refl _, fun _ => le_refl _⟩
  · rw [if_neg ht0] at hi
    by_cases htd : duration ≤ detuneLimitFor sampleRate startFreq driftRate / driftRate
    · rw [if_pos htd] at hi
      have hvt : v = driftRate * duration := by
        simp only [List.mem_singleton] at hi
        subst hi
        simpa [AudioInstr.detuneTarget] using hv.symm
      constructor
      · intro hpos
        rw [hvt]
        have h := (le_div_iff₀ hpos).mp htd
        linarith
      · intro hneg
        rw [hvt]
        have h := (le_div_iff_of_neg hneg).mp htd
        linarith
    · rw [if_neg htd] at hi
      have hvL : v = detuneLimitFor sampleRate startFreq driftRate := by
        simp only [List.mem_cons, List.not_mem_nil, or_false] at hi
        rcases hi with rfl | rfl <;> simpa [AudioInstr.detuneTarget] using hv.symm
      rw [hvL]
      exact ⟨fun _ => le_refl _, fun _ => le_refl _⟩

/-- C1 witness: sample rate 2 makes both detune bounds 0, so a unit rate
over a unit duration is already past the boundary and the degenerate
immediate hold is emitted. -/
theorem scheduleDetuneRamp_safeguard_cases_witness :
    scheduleDetuneRamp 2 0 1 1 1 true
      = [AudioInstr.setDetune (detuneLimitFor 2 1 1) 0,
         AudioInstr.setDetune (detuneLimitFor 2 1 1) (0 + 1)] := by
  have hmax : maxDetuneFor 2 1 = 0 := by
    simp [maxDetuneFor, clampFrequency, getFrequencyBounds, minOscillatorFrequency,
      nyquistHeadroom, min_def, max_def]
    norm_num [Real.logb_one]
  have hlim : detuneLimitFor 2 1 1 = 0 := by
    simp [detuneLimitFor, hmax]
  have h := (scheduleDetuneRamp_safeguard_cases 2 0 1 1 1 (by norm_num) (by norm_num)
    (Or.inr (by rw [hmax]; norm_num))).1
  rw [h, if_pos (by rw [hlim]; norm_num)]

theorem playNote_no_context_noop_witness :
    playNote (K := ℕ) ⟨none, 0, []⟩ 440 0
      ⟨0, WaveType.sine, 1000, 0, 50, DriftMode.gaussian, 0, 0⟩ ⟨0, 0, 0, 0⟩
      = (⟨none, 0, []⟩, []) :=
  playNote_no_context_noop _ _ _ _ _ rfl


